import Mathlib

/-!
Verification of the path-build and embedding-API surface of the lokinet
repository (files `include/llarp/path.hpp` and `llarp/lokinet_shared.cpp`).

The C++ code is shallowly embedded: machine integers are modelled as `Nat`
(bytes carry an explicit `% 256`, `size_t` values stay below `2 ^ 64`),
buffers are `List Nat`, fallible collaborator calls (crypto, codec, QUIC)
are oracles supplied through an environment record, and the asynchronous
task chain of `AsyncPathKeyExchangeContext` is modelled as a recursion that
also emits the ordered list of scheduling/crypto events the code performs.
-/

/- ------------------------------------------------------------------ -/
/- Data model of include/llarp/path.hpp                               -/
/- ------------------------------------------------------------------ -/

/-- One entry of `TransitHopInfo` (path.hpp lines 22-71): a 16-byte
`PathID_t` and two 32-byte `RouterID`s, modelled as byte lists. -/
structure TransitHopInfo where
  pathID : List Nat
  upstream : List Nat
  downstream : List Nat
deriving DecidableEq, Repr

instance : Inhabited TransitHopInfo :=
  ⟨⟨List.replicate 16 0, List.replicate 32 0, List.replicate 32 0⟩⟩

/-- Modelled collaborator (`AlignedBuffer::operator<` from aligned.hpp, not
under src/): byte-wise `memcmp(a, b, n) < 0` on equal-length buffers,
i.e. strict lexicographic order on the byte lists. -/
def memcmpLt : List Nat → List Nat → Bool
  | [], [] => false
  | [], _ :: _ => true
  | _ :: _, [] => false
  | a :: as, b :: bs => if a < b then true else if b < a then false else memcmpLt as bs

/-- `TransitHopInfo::operator<` (path.hpp lines 52-57), translated as
written in the source: `pathID < o.pathID || upstream < o.upstream
|| downstream < o.downstream`. -/
def TransitHopInfo.ltB (a b : TransitHopInfo) : Bool :=
  memcmpLt a.pathID b.pathID || memcmpLt a.upstream b.upstream
    || memcmpLt a.downstream b.downstream

/-- `memcpy(&idx, src, sizeof(std::size_t))` followed by reading `idx`
on a 64-bit little-endian machine: the first 8 bytes of `src` assembled
least-significant-first. Each memory byte is reduced `% 256`. -/
def memcpySizeT (src : List Nat) : Nat :=
  (src.take 8).foldr (fun b acc => acc * 256 + b % 256) 0

/-- `TransitHopInfo::Hash::operator()` (path.hpp lines 59-70): XOR of the
three `size_t` loads from `upstream`, `downstream` and `pathID`. -/
def TransitHopInfo.hashF (a : TransitHopInfo) : Nat :=
  memcpySizeT a.upstream ^^^ memcpySizeT a.downstream ^^^ memcpySizeT a.pathID

/-- Specification-side reading of a `size_t`: the sum of the first
`sizeof(size_t) = 8` bytes weighted little-endian. Used to cross-check
`memcpySizeT`. -/
def sizeTOfBytesLE (bs : List Nat) : Nat :=
  ∑ i ∈ Finset.range 8, bs.getD i 0 % 256 * 2 ^ (8 * i)

/-- `TransitHop` (path.hpp lines 84-105). `started` and `version` carry no
initialiser in the source (indeterminate); they are modelled as 0. The
only field with a default member initialiser is `lifetime = 360000`. -/
structure TransitHop where
  info : TransitHopInfo
  pathKey : Nat
  started : Nat
  lifetime : Nat
  version : Nat
deriving DecidableEq, Repr

/-- A default-constructed `TransitHop` (`TransitHop() = default;`),
keeping the in-class initialiser `lifetime = 360000` from path.hpp
line 92. -/
def TransitHop.defaultCtor : TransitHop :=
  { info := default, pathKey := 0, started := 0, lifetime := 360000, version := 0 }

/- ------------------------------------------------------------------ -/
/- Build pipeline: AsyncPathKeyExchangeContext                         -/
/- ------------------------------------------------------------------ -/

/-- The part of an `llarp_rc` the build pipeline reads: the hop's
long-term encryption key and its public identity. Keys are abstract
`Nat` tokens. -/
structure RouterContact where
  enckey : Nat
  pubkey : Nat
deriving DecidableEq, Repr

instance : Inhabited RouterContact := ⟨⟨0, 0⟩⟩

/-- `PathHopConfig` (path.hpp lines 108-125). -/
structure PathHopConfig where
  pathID : Nat
  router : RouterContact
  commkey : Nat
  shared : Nat
  upstream : Nat
  nonce : Nat
deriving DecidableEq, Repr

instance : Inhabited PathHopConfig := ⟨⟨0, default, 0, 0, 0, 0⟩⟩

/-- Abstract content of one `EncryptedFrame` buffer: either the random
fill produced by `Randomize()` in `AsyncGenerateKeys`, or the ciphertext
produced by `EncryptInPlace` for hop `i`. -/
inductive FrameContent where
  | random (i : Nat)
  | encrypted (i : Nat)
deriving DecidableEq, Repr

instance : Inhabited FrameContent := ⟨.random 0⟩

/-- An `EncryptedFrame`: its byte size and abstract content. -/
structure EncryptedFrame where
  sz : Nat
  content : FrameContent
deriving DecidableEq, Repr

instance : Inhabited EncryptedFrame := ⟨⟨0, default⟩⟩

/-- The observable operations `GenerateNextKey` / `AsyncGenerateKeys`
perform, in program order: per-hop crypto steps and enqueue operations on
the worker pool (`llarp_threadpool_queue_job`) and on the logic executor
(`llarp_logic_queue_job` with `HandleDone`). -/
inductive BuildEv where
  | keygen (i : Nat)
  | randNonce (i : Nat)
  | dhClient (i : Nat)
  | randPathID (i : Nat)
  | bencode (i : Nat)
  | encryptFrame (i : Nat)
  | queueWorker (i : Nat)
  | queueLogicHandleDone
deriving DecidableEq, Repr

/-- Which of the three fallible steps of `GenerateNextKey` failed. -/
inductive AbortReason where
  | dhFail
  | encodeFail
  | encryptFail
deriving DecidableEq, Repr

/-- Result of the build chain. `aborted i why` models the source calling
`abort()` while processing hop `i`: the process terminates, no completion
handler is ever queued. `fuelOut` has no counterpart in the source; it is
only reachable when the recursion is started with less fuel than hops,
which the top-level entry point never does. -/
inductive BuildOutcome where
  | completed (hops : List PathHopConfig) (frames : List EncryptedFrame)
  | aborted (i : Nat) (why : AbortReason)
  | fuelOut
deriving DecidableEq, Repr

/-- Oracles for the collaborator calls `GenerateNextKey` makes, indexed by
the hop being processed where the collaborator consumes fresh randomness:
`keygen i` is the ephemeral secret produced by `encryption_keygen` at hop
`i`, `randNonce i` / `randPathID i` the values written by `Randomize()`,
`dh_client ek ck nn` the shared secret (`none` models the call returning
false), and `bencodeOk` / `encryptOk` tell whether `BEncode` and
`EncryptInPlace` succeed at hop `i`. -/
structure BuildEnv where
  keygen : Nat → Nat
  randNonce : Nat → Nat
  randPathID : Nat → Nat
  dh_client : Nat → Nat → Nat → Option Nat
  bencodeOk : Nat → Bool
  encryptOk : Nat → Bool

/-- `AsyncPathKeyExchangeContext::GenerateNextKey` (path.hpp lines
179-242), as the whole task chain it generates: process hop `i`, then
either enqueue itself for hop `i+1` on the worker pool or enqueue
`HandleDone` on the logic executor. `N` is `path->hops.size()` (constant
across the chain). The returned list records every operation in program
order. Recursion is by the explicit `fuel` argument so that the function
is structurally recursive and kernel-computable; the entry point
`AsyncGenerateKeys` supplies `fuel = hops.length`, which the proofs show
is always enough (`fuelOut` is then unreachable). -/
def GenerateNextKey (env : BuildEnv) (N : Nat) (hops : List PathHopConfig)
    (frames : List EncryptedFrame) (i fuel : Nat) : List BuildEv × BuildOutcome :=
  let hop := hops.getD i default
  let ck := env.keygen i
  let nn := env.randNonce i
  match env.dh_client hop.router.enckey ck nn with
  | none => ([.keygen i, .randNonce i, .dhClient i], .aborted i .dhFail)
  | some sh =>
    let pid := env.randPathID i
    let up := if i + 1 < N then (hops.getD (i + 1) default).router.pubkey
              else hop.router.pubkey
    let hop' : PathHopConfig :=
      { pathID := pid, router := hop.router, commkey := ck, shared := sh,
        upstream := up, nonce := nn }
    let hops' := hops.set i hop'
    if env.bencodeOk i then
      if env.encryptOk i then
        let frames' := frames.set i
          { frames.getD i default with content := .encrypted i }
        let evs : List BuildEv :=
          [.keygen i, .randNonce i, .dhClient i, .randPathID i, .bencode i,
           .encryptFrame i]
        if i + 1 < N then
          match fuel with
          | 0 => (evs ++ [.queueWorker (i + 1)], .fuelOut)
          | fuel' + 1 =>
            let rest := GenerateNextKey env N hops' frames' (i + 1) fuel'
            (evs ++ .queueWorker (i + 1) :: rest.1, rest.2)
        else
          (evs ++ [.queueLogicHandleDone], .completed hops' frames')
      else
        ([.keygen i, .randNonce i, .dhClient i, .randPathID i, .bencode i,
          .encryptFrame i], .aborted i .encryptFail)
    else
      ([.keygen i, .randNonce i, .dhClient i, .randPathID i, .bencode i],
       .aborted i .encodeFail)

/-- The `MAXHOPS` frames `AsyncGenerateKeys` pushes into the fresh
`LR_CommitMessage`: each `emplace_back(256)` then `Randomize()`. -/
def initFrames (maxhops : Nat) : List EncryptedFrame :=
  (List.range maxhops).map fun j => { sz := 256, content := .random j }

/-- `AsyncPathKeyExchangeContext::AsyncGenerateKeys` (path.hpp lines
249-266): allocate the commit message, fill `maxhops` random 256-byte
frames, then queue the first `GenerateNextKey` task on the worker pool. -/
def AsyncGenerateKeys (env : BuildEnv) (maxhops : Nat)
    (hops : List PathHopConfig) : List BuildEv × BuildOutcome :=
  let res := GenerateNextKey env hops.length hops (initFrames maxhops) 0 hops.length
  (.queueWorker 0 :: res.1, res.2)

/-- The events one successful hop of `GenerateNextKey` contributes: its six
crypto/codec steps followed by the enqueue that its completion performs. -/
def hopBlock (N j : Nat) : List BuildEv :=
  [.keygen j, .randNonce j, .dhClient j, .randPathID j, .bencode j,
   .encryptFrame j]
  ++ [if j + 1 < N then .queueWorker (j + 1) else .queueLogicHandleDone]

/-- The value hop `j` holds after `GenerateNextKey` processed it, expressed
over the original hop list (the pipeline never touches `router`). -/
def builtHop (env : BuildEnv) (N : Nat) (hops : List PathHopConfig)
    (j : Nat) : PathHopConfig :=
  { pathID := env.randPathID j,
    router := (hops.getD j default).router,
    commkey := env.keygen j,
    shared := (env.dh_client (hops.getD j default).router.enckey
      (env.keygen j) (env.randNonce j)).getD 0,
    upstream := if j + 1 < N then (hops.getD (j + 1) default).router.pubkey
                else (hops.getD j default).router.pubkey,
    nonce := env.randNonce j }

/-- All collaborator calls succeed on the first `N` hops. -/
def SuccessCrypto (env : BuildEnv) (N : Nat) (hops : List PathHopConfig) : Prop :=
  (∀ j, j < N → (env.dh_client (hops.getD j default).router.enckey
      (env.keygen j) (env.randNonce j)).isSome = true)
  ∧ (∀ j, j < N → env.bencodeOk j = true)
  ∧ (∀ j, j < N → env.encryptOk j = true)

/-- Extract the hop index of a key-generation event. -/
def evKeygenIdx : BuildEv → Option Nat
  | .keygen i => some i
  | _ => none

/-- Extract the hop index of a worker-pool enqueue event. -/
def evQueueWorkerIdx : BuildEv → Option Nat
  | .queueWorker i => some i
  | _ => none

/-- Position of the first occurrence of event `e` in trace `t`. -/
def firstPos (t : List BuildEv) (e : BuildEv) : Nat :=
  t.findIdx fun x => x = e

/- ------------------------------------------------------------------ -/
/- Embedding API: llarp/lokinet_shared.cpp                             -/
/- ------------------------------------------------------------------ -/

/-- The errno values `lokinet_shared.cpp` writes into
`lokinet_stream_result::error` (`ok` is the 0 written by `stream_okay`;
`raised n` is a propagated `catch (int err)` value). -/
inductive ErrNo where
  | ok
  | EHOSTDOWN
  | EINVAL
  | ETIMEDOUT
  | ECANCELED
  | ENOTSUP
  | EBADF
  | raised (n : Nat)
deriving DecidableEq, Repr

instance : Inhabited ErrNo := ⟨.ok⟩

/-- `lokinet_stream_result`: the fields the functions under test write.
Strings and addresses are abstract `Nat` tokens. -/
structure StreamResult where
  error : ErrNo
  local_address : Nat
  local_port : Nat
  stream_id : Nat
deriving DecidableEq, Repr

instance : Inhabited StreamResult := ⟨⟨.ok, 0, 0, 0⟩⟩

/-- The state of a (non-null) `lokinet_context`: whether the router is up
and the `streams` map (stream id, inbound flag). -/
structure LokinetCtx where
  isUp : Bool
  streams : List (Nat × Bool)
deriving DecidableEq, Repr

/-- An exception escaping a collaborator call inside the logic-thread
lambda: either a `std::exception` or a thrown `int`. -/
inductive CallExc where
  | stdExc
  | intExc (e : ErrNo)
deriving DecidableEq, Repr

/-- Oracles for the collaborators `lokinet_shared.cpp` calls: string
parsing (`split_host_port`, `SockAddr` construction), the hidden-service
endpoint and QUIC tunnel lookups, `quic->open` / `quic->listen`, and the
future machinery (`promiseReadyWithin s` says the promise was fulfilled
within `s` seconds; `futureGetThrows` models `future.get()` rethrowing). -/
structure HostEnv where
  splitHostPort : Nat → Option (Nat × Nat)
  parseLocalAddr : Option Nat → Option Nat
  defaultEndpointAddr : Nat
  endpointExists : Bool
  quicExists : Bool
  quicOpen : Nat → Nat → Nat → Except CallExc (Nat × Nat)
  splitAddrStr : Nat → Except CallExc (Nat × Nat)
  quicListen : Nat
  promiseReadyWithin : Nat → Bool
  futureGetThrows : Bool

/-- The deadline `lokinet_outbound_stream` passes to `future.wait_for`
(`std::chrono::seconds{10}`, lokinet_shared.cpp line 297). -/
def outboundStreamTimeoutSecs : Nat := 10

/-- The logic-thread lambda `call` of `lokinet_outbound_stream`
(lokinet_shared.cpp lines 241-281): endpoint / QUIC lookup (`ENOTSUP` if
absent), `quic->open`, re-split of the local address, registration of the
outbound stream, `stream_okay`; `std::exception` maps to `ECANCELED`,
a thrown `int` is stored as-is. -/
def outboundCall (env : HostEnv) (ctx : LokinetCtx) (r : StreamResult)
    (rh rp la : Nat) : StreamResult × LokinetCtx :=
  if env.endpointExists = false then ({ r with error := .ENOTSUP }, ctx)
  else if env.quicExists = false then ({ r with error := .ENOTSUP }, ctx)
  else
    match env.quicOpen rh rp la with
    | .error .stdExc => ({ r with error := .ECANCELED }, ctx)
    | .error (.intExc e) => ({ r with error := e }, ctx)
    | .ok (addr, id) =>
      match env.splitAddrStr addr with
      | .error .stdExc => ({ r with error := .ECANCELED }, ctx)
      | .error (.intExc e) => ({ r with error := e }, ctx)
      | .ok (host, port) =>
        ({ error := .ok, local_address := host, local_port := port,
           stream_id := id },
         { ctx with streams := (id, false) :: ctx.streams })

/-- `lokinet_outbound_stream` (lokinet_shared.cpp lines 190-311). A null
`ctx` writes `EHOSTDOWN` and returns; a router that is not up likewise;
`split_host_port` throwing writes `EINVAL` (the thrown value); a bad local
address writes `EINVAL`; then the call is queued on the logic thread and
the caller waits on the promise for at most `outboundStreamTimeoutSecs`
seconds, writing `ETIMEDOUT` if it is not fulfilled in time (the queued
work may still run later; its effects are not observed by this return). -/
def lokinet_outbound_stream (env : HostEnv) (r : StreamResult) (remote : Nat)
    (localA : Option Nat) (ctx? : Option LokinetCtx) :
    StreamResult × Option LokinetCtx :=
  match ctx? with
  | none => ({ r with error := .EHOSTDOWN }, none)
  | some ctx =>
    if ctx.isUp = false then ({ r with error := .EHOSTDOWN }, some ctx)
    else
      match env.splitHostPort remote with
      | none => ({ r with error := .EINVAL }, some ctx)
      | some (rh, rp) =>
        match env.parseLocalAddr localA with
        | none => ({ r with error := .EINVAL }, some ctx)
        | some la =>
          if env.promiseReadyWithin outboundStreamTimeoutSecs then
            let res := outboundCall env ctx r rh rp la
            if env.futureGetThrows then
              ({ res.1 with error := .EBADF }, some res.2)
            else (res.1, some res.2)
          else ({ r with error := .ETIMEDOUT }, some ctx)

/-- `lokinet_address` (lokinet_shared.cpp lines 117-127): null `ctx`
returns `nullptr` (`none`), otherwise a copy of the default endpoint's
address. -/
def lokinet_address (env : HostEnv) (ctx? : Option LokinetCtx) : Option Nat :=
  match ctx? with
  | none => none
  | some _ => some env.defaultEndpointAddr

/-- `lokinet_inbound_stream_filter` (lokinet_shared.cpp lines 320-365):
a null filter is replaced by an accept-all one, a null `ctx` returns `-1`,
a router that is not up returns `-1`, otherwise `quic->listen` runs on the
logic thread, the id is registered as inbound and returned. -/
def lokinet_inbound_stream_filter (env : HostEnv)
    (acceptFilter : Option (Nat → Nat → Int)) (ctx? : Option LokinetCtx) :
    Int × Option LokinetCtx :=
  let _filter := acceptFilter.getD fun _ _ => 0
  match ctx? with
  | none => (-1, none)
  | some ctx =>
    if ctx.isUp = false then (-1, some ctx)
    else
      let id := env.quicListen
      (Int.ofNat id, some { ctx with streams := (id, true) :: ctx.streams })

/-- What `lokinet_close_stream` asks the QUIC tunnel to do. -/
inductive CloseAct where
  | forget (id : Nat)
  | close (id : Nat)
deriving DecidableEq, Repr

/-- `ctx->streams.at(id)`: `none` models `std::out_of_range`, swallowed by
the enclosing `catch (...)`. -/
def lookupStream (streams : List (Nat × Bool)) (id : Nat) : Option Bool :=
  (streams.find? fun p => p.1 == id).map fun p => p.2

/-- `lokinet_close_stream` (lokinet_shared.cpp lines 367-398): null `ctx`
or a router that is not up returns with no effect; an unknown stream id
throws inside the `try` and is swallowed; otherwise `forget` (inbound) or
`close` (outbound) is issued on the logic thread. -/
def lokinet_close_stream (streamId : Nat) (ctx? : Option LokinetCtx) :
    Option LokinetCtx × List CloseAct :=
  match ctx? with
  | none => (none, [])
  | some ctx =>
    if ctx.isUp = false then (some ctx, [])
    else
      match lookupStream ctx.streams streamId with
      | none => (some ctx, [])
      | some inbound =>
        (some ctx, [if inbound then .forget streamId else .close streamId])

/- ------------------------------------------------------------------ -/
/- Concrete fixtures used by the witness theorems                      -/
/- ------------------------------------------------------------------ -/

/-- A build environment in which every collaborator call succeeds. -/
def envOk : BuildEnv :=
  { keygen := fun i => 100 + i,
    randNonce := fun i => 200 + i,
    randPathID := fun i => 300 + i,
    dh_client := fun ek ck nn => some (ek + ck + nn),
    bencodeOk := fun _ => true,
    encryptOk := fun _ => true }

/-- A build environment whose `dh_client` always fails. -/
def envDhFail : BuildEnv :=
  { envOk with dh_client := fun _ _ _ => none }

/-- A concrete two-hop path. -/
def hops2 : List PathHopConfig :=
  [{ pathID := 0, router := ⟨11, 21⟩, commkey := 0, shared := 0,
     upstream := 0, nonce := 0 },
   { pathID := 0, router := ⟨12, 22⟩, commkey := 0, shared := 0,
     upstream := 0, nonce := 0 }]

/-- A concrete one-hop path. -/
def hops1 : List PathHopConfig :=
  [{ pathID := 0, router := ⟨11, 21⟩, commkey := 0, shared := 0,
     upstream := 0, nonce := 0 }]

/-- A host environment whose logic-thread promise is never fulfilled in
time. -/
def hostEnvSlow : HostEnv :=
  { splitHostPort := fun _ => some (1, 2),
    parseLocalAddr := fun _ => some 3,
    defaultEndpointAddr := 7,
    endpointExists := true,
    quicExists := true,
    quicOpen := fun _ _ _ => .ok (5, 9),
    splitAddrStr := fun _ => .ok (6, 8),
    quicListen := 4,
    promiseReadyWithin := fun _ => false,
    futureGetThrows := false }

/-- A concrete `TransitHopInfo` with distinct identifier bytes. -/
def infoA : TransitHopInfo :=
  { pathID := 1 :: List.replicate 15 0,
    upstream := 2 :: List.replicate 31 0,
    downstream := 8 :: List.replicate 31 0 }

/-- A `TransitHopInfo` with a larger `pathID` but a smaller `upstream`
than `infoA`. -/
def infoB : TransitHopInfo :=
  { pathID := 4 :: List.replicate 15 0,
    upstream := 1 :: List.replicate 31 0,
    downstream := 8 :: List.replicate 31 0 }

/- ------------------------------------------------------------------ -/
/- Helper lemmas                                                       -/
/- ------------------------------------------------------------------ -/

/-- Helper: `getD` after `set` at the same index. -/
theorem getD_set_self {α : Type} (l : List α) (i : Nat) (a d : α)
    (h : i < l.length) : (l.set i a).getD i d = a := by
  simp [List.getD_eq_getElem?_getD, List.getElem?_set_self', List.getElem?_eq_getElem h]

/-- Helper: `getD` after `set` at a different index. -/
theorem getD_set_ne {α : Type} (l : List α) {i j : Nat} (h : i ≠ j) (a d : α) :
    (l.set i a).getD j d = l.getD j d := by
  simp [List.getD_eq_getElem?_getD, List.getElem?_set_ne h]

/-- Main characterisation of a fully successful `GenerateNextKey` chain
starting at hop `i` with `k` further hops to go: the emitted events are
exactly the hop blocks of `i, …, N-1` in order, the outcome is
`completed`, every processed hop ends up as `builtHop`, every processed
frame is the encrypted version of the frame it started from, and all
other hops and frames are untouched. -/
theorem GenerateNextKey_ok (env : BuildEnv) (N : Nat) (hops₀ : List PathHopConfig)
    (hok : SuccessCrypto env N hops₀) :
    ∀ (k i fuel : Nat) (hs : List PathHopConfig) (fs : List EncryptedFrame),
      N = i + (k + 1) → k ≤ fuel →
      hs.length = N → N ≤ fs.length →
      (∀ j, i ≤ j → hs.getD j default = hops₀.getD j default) →
      ∃ hs' fs',
        GenerateNextKey env N hs fs i fuel
          = ((List.range' i (k + 1)).flatMap (hopBlock N), .completed hs' fs')
        ∧ hs'.length = N ∧ fs'.length = fs.length
        ∧ (∀ j, j < i → hs'.getD j default = hs.getD j default)
        ∧ (∀ j, i ≤ j → j < N → hs'.getD j default = builtHop env N hops₀ j)
        ∧ (∀ j, j < i → fs'.getD j default = fs.getD j default)
        ∧ (∀ j, i ≤ j → j < N → fs'.getD j default
              = { fs.getD j default with content := .encrypted j })
        ∧ (∀ j, N ≤ j → fs'.getD j default = fs.getD j default) := by
  intro k
  induction k with
  | zero =>
    intro i fuel hs fs hNi hfuel hlen hflen hsuff
    have hhop : hs.getD i default = hops₀.getD i default := hsuff i (Nat.le_refl i)
    obtain ⟨sh, hsh⟩ := Option.isSome_iff_exists.mp (hok.1 i (by omega))
    have hben := hok.2.1 i (by omega)
    have henc := hok.2.2 i (by omega)
    have hnotlt : ¬ i + 1 < N := by omega
    refine ⟨hs.set i (builtHop env N hops₀ i),
      fs.set i { fs.getD i default with content := .encrypted i },
      ?_, ?_, ?_, ?_, ?_, ?_, ?_, ?_⟩
    · rw [GenerateNextKey]
      simp only [hhop, hsh, hben, henc, if_true, hnotlt, if_false, if_neg hnotlt,
        builtHop, Option.getD_some]
      rw [show List.range' i (0 + 1) = [i] from List.range'_one]
      simp [hopBlock, hnotlt]
    · simp [List.length_set, hlen]
    · simp [List.length_set]
    · intro j hj; exact getD_set_ne hs (by omega) _ _
    · intro j hij hjN
      have hji : j = i := by omega
      subst hji
      exact getD_set_self hs j _ _ (by omega)
    · intro j hj; exact getD_set_ne fs (by omega) _ _
    · intro j hij hjN
      have hji : j = i := by omega
      subst hji
      exact getD_set_self fs j _ _ (by omega)
    · intro j hj; exact getD_set_ne fs (by omega) _ _
  | succ k ih =>
    intro i fuel hs fs hNi hfuel hlen hflen hsuff
    have hhop : hs.getD i default = hops₀.getD i default := hsuff i (Nat.le_refl i)
    obtain ⟨sh, hsh⟩ := Option.isSome_iff_exists.mp (hok.1 i (by omega))
    have hben := hok.2.1 i (by omega)
    have henc := hok.2.2 i (by omega)
    have hlt : i + 1 < N := by omega
    cases fuel with
    | zero => omega
    | succ f =>
      obtain ⟨hs'', fs'', heq, hlen'', hflen'', hpre, hmain, hfpre, hfmain, hfhigh⟩ :=
        ih (i + 1) f
          (hs.set i
            { pathID := env.randPathID i, router := (hops₀.getD i default).router,
              commkey := env.keygen i, shared := sh,
              upstream := (hs.getD (i + 1) default).router.pubkey,
              nonce := env.randNonce i })
          (fs.set i { fs.getD i default with content := .encrypted i })
          (by omega) (by omega) (by simp [List.length_set, hlen])
          (by simp [List.length_set]; omega)
          (by
            intro j hj
            rw [getD_set_ne hs (by omega) _ _]
            exact hsuff j (by omega))
      refine ⟨hs'', fs'', ?_, hlen'', ?_, ?_, ?_, ?_, ?_, ?_⟩
      · rw [GenerateNextKey]
        simp only [hhop, hsh, hben, henc, if_true, if_pos hlt]
        rw [show List.range' i (k + 1 + 1) = i :: List.range' (i + 1) (k + 1) from
          List.range'_succ i (k + 1) 1]
        rw [List.flatMap_cons]
        simp only [heq]
        simp [hopBlock, hlt]
      · simpa [List.length_set] using hflen''
      · intro j hj
        rw [hpre j (by omega), getD_set_ne hs (by omega) _ _]
      · intro j hij hjN
        rcases Nat.eq_or_lt_of_le hij with h | h
        · subst h
          rw [hpre i (by omega), getD_set_self hs i _ _ (by omega)]
          simp only [builtHop, hsh, Option.getD_some, if_pos hlt]
          rw [hsuff (i + 1) (by omega)]
        · exact hmain j (by omega) hjN
      · intro j hj
        rw [hfpre j (by omega), getD_set_ne fs (by omega) _ _]
      · intro j hij hjN
        rcases Nat.eq_or_lt_of_le hij with h | h
        · subst h
          rw [hfpre i (by omega), getD_set_self fs i _ _ (by omega)]
        · rw [hfmain j (by omega) hjN, getD_set_ne fs (by omega) _ _]
      · intro j hj
        rw [hfhigh j hj, getD_set_ne fs (by omega) _ _]

/-- Helper: `filterMap` of the keygen index over a run of hop blocks
recovers exactly the hop indices in order. -/
theorem flatMap_hopBlock_keygen (N : Nat) :
    ∀ (k i : Nat), ((List.range' i k).flatMap (hopBlock N)).filterMap evKeygenIdx
      = List.range' i k := by
  intro k
  induction k with
  | zero => intro i; simp
  | succ k ih =>
    intro i
    rw [List.range'_succ, List.flatMap_cons, List.filterMap_append, ih (i + 1)]
    by_cases h : i + 1 < N <;> simp [hopBlock, evKeygenIdx, h]

/-- Helper: the worker-pool enqueues inside a run of hop blocks ending at
the last hop are exactly the indices `i+1, …, N-1`. -/
theorem flatMap_hopBlock_queueWorker (N : Nat) :
    ∀ (k i : Nat), i + (k + 1) = N →
      ((List.range' i (k + 1)).flatMap (hopBlock N)).filterMap evQueueWorkerIdx
        = List.range' (i + 1) k := by
  intro k
  induction k with
  | zero =>
    intro i hi
    have h : ¬ i + 1 < N := by omega
    simp [List.range'_one, hopBlock, evQueueWorkerIdx, h]
  | succ k ih =>
    intro i hi
    rw [List.range'_succ, List.flatMap_cons, List.filterMap_append, ih (i + 1) (by omega),
      List.range'_succ]
    have h : i + 1 < N := by omega
    simp [hopBlock, evQueueWorkerIdx, h]

/-- Helper: a run of hop blocks reaching the last hop ends in the single
`HandleDone` enqueue. -/
theorem flatMap_hopBlock_done (N : Nat) :
    ∀ (k i : Nat), i + (k + 1) = N →
      ∃ p, (List.range' i (k + 1)).flatMap (hopBlock N)
          = p ++ [BuildEv.queueLogicHandleDone]
        ∧ BuildEv.queueLogicHandleDone ∉ p := by
  intro k
  induction k with
  | zero =>
    intro i hi
    have h : ¬ i + 1 < N := by omega
    refine ⟨[.keygen i, .randNonce i, .dhClient i, .randPathID i, .bencode i,
      .encryptFrame i], ?_, by simp⟩
    simp [List.range'_one, hopBlock, h]
  | succ k ih =>
    intro i hi
    obtain ⟨p, hp, hnp⟩ := ih (i + 1) (by omega)
    have h : i + 1 < N := by omega
    refine ⟨hopBlock N i ++ p, ?_, ?_⟩
    · rw [List.range'_succ, List.flatMap_cons, hp, List.append_assoc]
    · simp [hopBlock, h, hnp]

/-- Helper: the trace of a fully successful `AsyncGenerateKeys` is the
initial worker enqueue followed by the hop blocks of `0, …, N-1`. -/
theorem asyncTrace_eq (env : BuildEnv) (maxhops : Nat) (hops : List PathHopConfig)
    (N : Nat) (hN : hops.length = N) (h1 : 1 ≤ N) (hmax : N ≤ maxhops)
    (hok : SuccessCrypto env N hops) :
    (AsyncGenerateKeys env maxhops hops).1
      = .queueWorker 0 :: (List.range N).flatMap (hopBlock N) := by
  obtain ⟨k, hk⟩ : ∃ k, N = 0 + (k + 1) := ⟨N - 1, by omega⟩
  obtain ⟨hs', fs', heq, -⟩ :=
    GenerateNextKey_ok env N hops hok k 0 hops.length hops (initFrames maxhops)
      hk (by omega) hN (by simpa [initFrames] using hmax) (fun j _ => rfl)
  rw [hN] at heq
  simp only [AsyncGenerateKeys, hN]
  rw [heq]
  have hrange : List.range N = List.range' 0 (k + 1) := by
    rw [List.range_eq_range']
    congr 1
    omega
  rw [hrange]

/-- Helper: the initial random frames, pointwise. -/
theorem initFrames_getD (m j : Nat) (h : j < m) (d : EncryptedFrame) :
    (initFrames m).getD j d = ⟨256, .random j⟩ := by
  simp [initFrames, List.getD_eq_getElem?_getD, List.getElem?_range h]

/-- Helper: a byte fold stays below `256 ^ length`. -/
theorem foldrByte_lt : ∀ l : List Nat,
    l.foldr (fun b acc => acc * 256 + b % 256) 0 < 256 ^ l.length := by
  intro l
  induction l with
  | nil => simp
  | cons b t ih =>
    simp only [List.foldr_cons, List.length_cons, pow_succ]
    have hb : b % 256 < 256 := Nat.mod_lt _ (by norm_num)
    have h2 : t.foldr (fun b acc => acc * 256 + b % 256) 0 + 1 ≤ 256 ^ t.length := ih
    calc t.foldr (fun b acc => acc * 256 + b % 256) 0 * 256 + b % 256
        < (t.foldr (fun b acc => acc * 256 + b % 256) 0 + 1) * 256 := by omega
      _ ≤ 256 ^ t.length * 256 := Nat.mul_le_mul_right _ h2

/-- Helper: a `size_t` load is below `2 ^ 64`. -/
theorem memcpySizeT_lt (bs : List Nat) : memcpySizeT bs < 2 ^ 64 := by
  have h1 := foldrByte_lt (bs.take 8)
  have h2 : (bs.take 8).length ≤ 8 := by simp [List.length_take]
  calc memcpySizeT bs < 256 ^ (bs.take 8).length := h1
    _ ≤ 256 ^ 8 := Nat.pow_le_pow_right (by norm_num) h2
    _ = 2 ^ 64 := by norm_num

/-- Helper: the fold over the first `n` bytes equals the positional
little-endian sum. -/
theorem take_foldr_eq (n : Nat) : ∀ bs : List Nat,
    (bs.take n).foldr (fun b acc => acc * 256 + b % 256) 0
      = ∑ i ∈ Finset.range n, bs.getD i 0 % 256 * 2 ^ (8 * i) := by
  induction n with
  | zero => intro bs; simp
  | succ n ih =>
    intro bs
    cases bs with
    | nil => simp
    | cons b t =>
      simp only [List.take_succ_cons, List.foldr_cons, ih t]
      rw [Finset.sum_range_succ']
      simp only [List.getD_cons_succ, List.getD_cons_zero, Nat.mul_zero, pow_zero,
        mul_one, Finset.sum_mul]
      congr 1
      apply Finset.sum_congr rfl
      intro i _
      have hp : (2 : Nat) ^ (8 * (i + 1)) = 2 ^ (8 * i) * 256 := by
        rw [show 8 * (i + 1) = 8 * i + 8 by ring, pow_add]
        norm_num
      rw [hp, ← mul_assoc]

/- ------------------------------------------------------------------ -/
/- Claim theorems                                                      -/
/- ------------------------------------------------------------------ -/

/-- C1: for every path with `N` hops (`1 ≤ N ≤ MAXHOPS`) on which all
crypto succeeds, the build trace is the initial worker enqueue followed by
the hop blocks of `0, 1, …, N-1` in strict index order; the worker-pool
enqueues are exactly `0, 1, …, N-1` (hop `i+1` enqueued only at the end of
hop `i`'s block), the key generations happen in index order, and the
`HandleDone` enqueue on the logic executor occurs exactly once, as the
very last event, after the last hop's frame encryption. -/
theorem buildTraceSequential (env : BuildEnv) (maxhops : Nat)
    (hops : List PathHopConfig) (N : Nat) (hN : hops.length = N) (h1 : 1 ≤ N)
    (hmax : N ≤ maxhops) (hok : SuccessCrypto env N hops) :
    (AsyncGenerateKeys env maxhops hops).1
        = .queueWorker 0 :: (List.range N).flatMap (hopBlock N)
      ∧ (∃ p, (AsyncGenerateKeys env maxhops hops).1
            = p ++ [BuildEv.queueLogicHandleDone]
          ∧ BuildEv.queueLogicHandleDone ∉ p)
      ∧ (AsyncGenerateKeys env maxhops hops).1.filterMap evKeygenIdx = List.range N
      ∧ (AsyncGenerateKeys env maxhops hops).1.filterMap evQueueWorkerIdx
          = List.range N := by
  have hA := asyncTrace_eq env maxhops hops N hN h1 hmax hok
  obtain ⟨k, hk⟩ : ∃ k, N = 0 + (k + 1) := ⟨N - 1, by omega⟩
  have hrange : List.range N = List.range' 0 (k + 1) := by
    rw [List.range_eq_range']
    congr 1
    omega
  refine ⟨hA, ?_, ?_, ?_⟩
  · obtain ⟨p, hp, hnp⟩ := flatMap_hopBlock_done N k 0 (by omega)
    refine ⟨.queueWorker 0 :: p, ?_, by simp [hnp]⟩
    rw [hA, hrange, hp]
    rfl
  · rw [hA, hrange]
    simp only [List.filterMap_cons, evKeygenIdx]
    rw [flatMap_hopBlock_keygen N (k + 1) 0]
  · rw [hA, hrange]
    simp only [List.filterMap_cons, evQueueWorkerIdx]
    rw [flatMap_hopBlock_queueWorker N k 0 (by omega), List.range'_succ]

/-- Witness for C1 at a concrete two-hop path. -/
theorem buildTraceSequential_wit :
    hops2.length = 2 ∧ 1 ≤ 2 ∧ 2 ≤ 4 ∧ SuccessCrypto envOk 2 hops2
    ∧ ((AsyncGenerateKeys envOk 4 hops2).1
          = .queueWorker 0 :: (List.range 2).flatMap (hopBlock 2)
        ∧ (∃ p, (AsyncGenerateKeys envOk 4 hops2).1
              = p ++ [BuildEv.queueLogicHandleDone]
            ∧ BuildEv.queueLogicHandleDone ∉ p)
        ∧ (AsyncGenerateKeys envOk 4 hops2).1.filterMap evKeygenIdx = List.range 2
        ∧ (AsyncGenerateKeys envOk 4 hops2).1.filterMap evQueueWorkerIdx
            = List.range 2) :=
  ⟨rfl, by decide, by decide, ⟨by decide, by decide, by decide⟩,
    buildTraceSequential envOk 4 hops2 2 rfl (by decide) (by decide)
      ⟨by decide, by decide, by decide⟩⟩

/-- C2: after the build pipeline has processed all `N` hops, each hop `i`
with `i + 1 < N` has `upstream = hops[i+1].router.pubkey` and the last
hop has `upstream = hops[N-1].router.pubkey` (the self-reference marking
the terminus). -/
theorem builtUpstreamChain (env : BuildEnv) (maxhops : Nat)
    (hops : List PathHopConfig) (N : Nat) (hN : hops.length = N) (h1 : 1 ≤ N)
    (hmax : N ≤ maxhops) (hok : SuccessCrypto env N hops) :
    ∃ hs' fs', (AsyncGenerateKeys env maxhops hops).2 = .completed hs' fs'
      ∧ (∀ i, i + 1 < N → (hs'.getD i default).upstream
            = (hops.getD (i + 1) default).router.pubkey)
      ∧ (hs'.getD (N - 1) default).upstream
          = (hops.getD (N - 1) default).router.pubkey := by
  obtain ⟨k, hk⟩ : ∃ k, N = 0 + (k + 1) := ⟨N - 1, by omega⟩
  obtain ⟨hs', fs', heq, hlen', hflen', hpre, hmain, -⟩ :=
    GenerateNextKey_ok env N hops hok k 0 hops.length hops (initFrames maxhops)
      hk (by omega) hN (by simpa [initFrames] using hmax) (fun j _ => rfl)
  rw [hN] at heq
  refine ⟨hs', fs', ?_, ?_, ?_⟩
  · simp only [AsyncGenerateKeys, hN]
    rw [heq]
  · intro i hi
    rw [hmain i (by omega) (by omega)]
    simp [builtHop, hi]
  · rw [hmain (N - 1) (by omega) (by omega)]
    have h : ¬ (N - 1 + 1 < N) := by omega
    simp [builtHop, h]

/-- Witness for C2 at a concrete two-hop path. -/
theorem builtUpstreamChain_wit :
    hops2.length = 2 ∧ 1 ≤ 2 ∧ 2 ≤ 4 ∧ SuccessCrypto envOk 2 hops2
    ∧ ∃ hs' fs', (AsyncGenerateKeys envOk 4 hops2).2 = .completed hs' fs'
        ∧ (∀ i, i + 1 < 2 → (hs'.getD i default).upstream
              = (hops2.getD (i + 1) default).router.pubkey)
        ∧ (hs'.getD (2 - 1) default).upstream
            = (hops2.getD (2 - 1) default).router.pubkey :=
  ⟨rfl, by decide, by decide, ⟨by decide, by decide, by decide⟩,
    builtUpstreamChain envOk 4 hops2 2 rfl (by decide) (by decide)
      ⟨by decide, by decide, by decide⟩⟩

/-- C3: at the concrete failing input (a one-hop path on which
`dh_client` fails), the code aborts the process (`abort()`) while
processing hop 0 and never enqueues the completion handler on the logic
executor — so no Build-Reject ever reaches the caller, contrary to the
claim that the failure is reported via the completion callback without
terminating the process. -/
theorem dhFailAbortsNoHandleDone :
    (AsyncGenerateKeys envDhFail 8 hops1).2 = .aborted 0 .dhFail
    ∧ BuildEv.queueLogicHandleDone ∉ (AsyncGenerateKeys envDhFail 8 hops1).1 := by
  decide

/-- C4: a default-constructed `TransitHop` has `lifetime = 360000`
milliseconds, not the 600000 (10 minutes) asserted by the claim and by
the comment directly above the field in the source. -/
theorem transitHopLifetimeDefault :
    TransitHop.defaultCtor.lifetime = 360000
    ∧ ¬ TransitHop.defaultCtor.lifetime = 600000 := by
  decide

/-- C5: `AsyncGenerateKeys` creates exactly `maxhops` frames of 256 bytes
each, every one initialised to random bytes before any hop processing
starts, and for a path with `N` real hops the frames at indices
`N, …, maxhops-1` of the completed message still equal their initial
random fill. -/
theorem commitFramesPadding (env : BuildEnv) (maxhops : Nat)
    (hops : List PathHopConfig) (N : Nat) (hN : hops.length = N) (h1 : 1 ≤ N)
    (hmax : N ≤ maxhops) (hok : SuccessCrypto env N hops) :
    (initFrames maxhops).length = maxhops
    ∧ (∀ j, j < maxhops →
        (initFrames maxhops).getD j default = ⟨256, .random j⟩)
    ∧ ∃ hs' fs', (AsyncGenerateKeys env maxhops hops).2 = .completed hs' fs'
        ∧ fs'.length = maxhops
        ∧ (∀ j, j < maxhops → (fs'.getD j default).sz = 256)
        ∧ (∀ j, N ≤ j →
            fs'.getD j default = (initFrames maxhops).getD j default) := by
  obtain ⟨k, hk⟩ : ∃ k, N = 0 + (k + 1) := ⟨N - 1, by omega⟩
  obtain ⟨hs', fs', heq, hlen', hflen', hpre, hmain, hfpre, hfmain, hfhigh⟩ :=
    GenerateNextKey_ok env N hops hok k 0 hops.length hops (initFrames maxhops)
      hk (by omega) hN (by simpa [initFrames] using hmax) (fun j _ => rfl)
  rw [hN] at heq
  refine ⟨by simp [initFrames], fun j hj => initFrames_getD maxhops j hj default,
    hs', fs', ?_, ?_, ?_, ?_⟩
  · simp only [AsyncGenerateKeys, hN]
    rw [heq]
  · rw [hflen']
    simp [initFrames]
  · intro j hj
    by_cases hjN : j < N
    · rw [hfmain j (by omega) hjN, initFrames_getD maxhops j hj default]
    · rw [hfhigh j (by omega), initFrames_getD maxhops j hj default]
  · intro j hj
    by_cases hjm : j < maxhops
    · exact hfhigh j hj
    · have hlen2 : (initFrames maxhops).length = maxhops := by simp [initFrames]
      have h1' : fs'.getD j default = default := by
        rw [List.getD_eq_getElem?_getD, List.getElem?_eq_none (by omega)]
        rfl
      have h2' : (initFrames maxhops).getD j default = default := by
        rw [List.getD_eq_getElem?_getD, List.getElem?_eq_none (by omega)]
        rfl
      rw [h1', h2']

/-- Witness for C5 at a concrete two-hop path with four frames. -/
theorem commitFramesPadding_wit :
    hops2.length = 2 ∧ 1 ≤ 2 ∧ 2 ≤ 4 ∧ SuccessCrypto envOk 2 hops2
    ∧ ((initFrames 4).length = 4
      ∧ (∀ j, j < 4 → (initFrames 4).getD j default = ⟨256, .random j⟩)
      ∧ ∃ hs' fs', (AsyncGenerateKeys envOk 4 hops2).2 = .completed hs' fs'
          ∧ fs'.length = 4
          ∧ (∀ j, j < 4 → (fs'.getD j default).sz = 256)
          ∧ (∀ j, 2 ≤ j → fs'.getD j default = (initFrames 4).getD j default)) :=
  ⟨rfl, by decide, by decide, ⟨by decide, by decide, by decide⟩,
    commitFramesPadding envOk 4 hops2 2 rfl (by decide) (by decide)
      ⟨by decide, by decide, by decide⟩⟩

/-- C6 counterexample: at a concrete one-hop build, the `dh_client` call
occurs strictly before the hop's `pathID` randomization in the trace, so
the claim that the pathID randomization precedes `dh_client` is false on
the code. -/
theorem pathIDBeforeDh_cex :
    BuildEv.dhClient 0 ∈ (AsyncGenerateKeys envOk 8 hops1).1
    ∧ BuildEv.randPathID 0 ∈ (AsyncGenerateKeys envOk 8 hops1).1
    ∧ firstPos (AsyncGenerateKeys envOk 8 hops1).1 (.dhClient 0)
        < firstPos (AsyncGenerateKeys envOk 8 hops1).1 (.randPathID 0) := by
  decide

/-- C6 as amended: for every hop the per-hop steps occur contiguously in
the order keygen, nonce randomization, `dh_client`, pathID randomization,
record encode, frame encryption — i.e. the nonce is randomized before
`dh_client`, and the pathID is randomized immediately after the
`dh_client` call (before the record is encoded and encrypted), not before
it. -/
theorem pathIDRandomizedAfterDh (env : BuildEnv) (maxhops : Nat)
    (hops : List PathHopConfig) (N : Nat) (hN : hops.length = N) (h1 : 1 ≤ N)
    (hmax : N ≤ maxhops) (hok : SuccessCrypto env N hops)
    (j : Nat) (hj : j < N) :
    ∃ p q, (AsyncGenerateKeys env maxhops hops).1
      = p ++ [BuildEv.keygen j, .randNonce j, .dhClient j, .randPathID j,
          .bencode j, .encryptFrame j] ++ q := by
  have hA := asyncTrace_eq env maxhops hops N hN h1 hmax hok
  refine ⟨.queueWorker 0 :: (List.range' 0 j).flatMap (hopBlock N),
    (if j + 1 < N then BuildEv.queueWorker (j + 1) else .queueLogicHandleDone)
      :: (List.range' (j + 1) (N - (j + 1))).flatMap (hopBlock N), ?_⟩
  rw [hA, List.range_eq_range']
  have hsplit : List.range' 0 N = List.range' 0 j ++ List.range' j (N - j) := by
    have h2 := List.range'_append 0 j (N - j) 1
    simp only [Nat.one_mul, Nat.zero_add] at h2
    rw [h2]
    congr 1
    omega
  have hsing : List.range' j (N - j) = j :: List.range' (j + 1) (N - (j + 1)) := by
    have h3 : N - j = (N - (j + 1)) + 1 := by omega
    rw [h3, List.range'_succ]
  rw [hsplit, List.flatMap_append, hsing, List.flatMap_cons]
  simp [hopBlock]

/-- Witness for the amended C6 at hop 0 of a concrete two-hop path. -/
theorem pathIDRandomizedAfterDh_wit :
    hops2.length = 2 ∧ 1 ≤ 2 ∧ 2 ≤ 4 ∧ SuccessCrypto envOk 2 hops2 ∧ 0 < 2
    ∧ ∃ p q, (AsyncGenerateKeys envOk 4 hops2).1
        = p ++ [BuildEv.keygen 0, .randNonce 0, .dhClient 0, .randPathID 0,
            .bencode 0, .encryptFrame 0] ++ q :=
  ⟨rfl, by decide, by decide, ⟨by decide, by decide, by decide⟩, by decide,
    pathIDRandomizedAfterDh envOk 4 hops2 2 rfl (by decide) (by decide)
      ⟨by decide, by decide, by decide⟩ 0 (by decide)⟩

/-- C7: `lokinet_outbound_stream` waits on the logic-thread promise with a
deadline of exactly 10 seconds; when the promise is not fulfilled within
that deadline (and the early-return paths are not taken) the function
returns with `result->error = ETIMEDOUT`, the queued work's later effects
being unobserved by this return. -/
theorem outboundStreamTimeoutETIMEDOUT (env : HostEnv) (r : StreamResult)
    (remote : Nat) (localA : Option Nat) (ctx : LokinetCtx) (rh rp la : Nat)
    (hup : ctx.isUp = true)
    (hsplit : env.splitHostPort remote = some (rh, rp))
    (hlocal : env.parseLocalAddr localA = some la)
    (hslow : env.promiseReadyWithin outboundStreamTimeoutSecs = false) :
    outboundStreamTimeoutSecs = 10
    ∧ (lokinet_outbound_stream env r remote localA (some ctx)).1.error
        = .ETIMEDOUT := by
  refine ⟨rfl, ?_⟩
  simp [lokinet_outbound_stream, hup, hsplit, hlocal, hslow]

/-- Witness for C7 at a concrete context and host environment. -/
theorem outboundStreamTimeout_wit :
    (⟨true, []⟩ : LokinetCtx).isUp = true
    ∧ hostEnvSlow.splitHostPort 0 = some (1, 2)
    ∧ hostEnvSlow.parseLocalAddr none = some 3
    ∧ hostEnvSlow.promiseReadyWithin outboundStreamTimeoutSecs = false
    ∧ (outboundStreamTimeoutSecs = 10
        ∧ (lokinet_outbound_stream hostEnvSlow default 0 none
            (some ⟨true, []⟩)).1.error = .ETIMEDOUT) :=
  ⟨rfl, rfl, rfl, rfl,
    outboundStreamTimeoutETIMEDOUT hostEnvSlow default 0 none ⟨true, []⟩ 1 2 3
      rfl rfl rfl rfl⟩

/-- C8: for every `TransitHopInfo a`, `Hash(a)` equals the XOR of the
three `size_t` values read from the first `sizeof(size_t)` bytes of
`a.upstream`, `a.downstream` and `a.pathID`, and the result fits in a
64-bit `size_t`. -/
theorem transitHopInfoHashSpec (a : TransitHopInfo) :
    TransitHopInfo.hashF a
        = sizeTOfBytesLE a.upstream ^^^ sizeTOfBytesLE a.downstream
            ^^^ sizeTOfBytesLE a.pathID
      ∧ TransitHopInfo.hashF a < 2 ^ 64 := by
  constructor
  · simp only [TransitHopInfo.hashF, memcpySizeT, sizeTOfBytesLE, take_foldr_eq]
  · exact Nat.xor_lt_two_pow
      (Nat.xor_lt_two_pow (memcpySizeT_lt _) (memcpySizeT_lt _)) (memcpySizeT_lt _)

/-- C9: at the concrete failing input `infoA` / `infoB` (where
`infoA.pathID < infoB.pathID` but `infoB.upstream < infoA.upstream`),
`operator<` returns true in both directions, so it is not asymmetric and
hence not a strict ordering. -/
theorem transitHopInfoLtBothWays :
    TransitHopInfo.ltB infoA infoB = true ∧ TransitHopInfo.ltB infoB infoA = true := by
  decide

/-- C10: with a null `lokinet_context`, `lokinet_address` returns
`nullptr`, `lokinet_outbound_stream` only sets `result->error` to
`EHOSTDOWN`, `lokinet_inbound_stream_filter` returns `-1`, and
`lokinet_close_stream` returns with no effect; each function returns at
its null check without touching the context. -/
theorem nullContextSafe (env : HostEnv) (r : StreamResult) (remote : Nat)
    (localA : Option Nat) (af : Option (Nat → Nat → Int)) (sid : Nat) :
    lokinet_address env none = none
    ∧ (lokinet_outbound_stream env r remote localA none).1
        = { r with error := .EHOSTDOWN }
    ∧ (lokinet_inbound_stream_filter env af none).1 = -1
    ∧ lokinet_close_stream sid none = (none, []) :=
  ⟨rfl, rfl, rfl, rfl⟩
